import Mathlib

/-!
Shallow embedding of the SM-2 spaced-repetition core of the WordDecode
repository (`sm2Algorithm.ts`) together with the due/new review queries of the
storage layer, and proofs of the specification claims about them.

Modelling conventions:
* JavaScript `number` values carrying ease factors are modelled as `ℚ`;
  day counts are modelled as `ℤ`; `Math.round` is `round` (both are
  floor-of-x-plus-half on the reachable nonnegative values).
* JavaScript `Date` values are modelled as integer timestamps in
  milliseconds; `setHours(0,0,0,0)` is truncation to the enclosing day
  boundary and `setHours(23,59,59,999)` is the last millisecond of that day.
* The wall-clock read `new Date()` inside `calculateNextReviewDate` is made
  an explicit `now` parameter.
-/

/-- The four UI grades (`SimpleQuality` union type in `types.ts`). -/
inductive SimpleQuality where
  | again
  | hard
  | good
  | easy
deriving DecidableEq, BEq, Repr

/-- Constant `MIN_EASE_FACTOR = 1.3`. -/
def MIN_EASE_FACTOR : ℚ := 13 / 10

/-- Constant `DEFAULT_EASE_FACTOR = 2.5`. -/
def DEFAULT_EASE_FACTOR : ℚ := 5 / 2

/-- Constant `MASTERY_INTERVAL_THRESHOLD = 21` days. -/
def MASTERY_INTERVAL_THRESHOLD : ℤ := 21

/-- `simpleToSM2Quality`: maps a UI grade to an SM-2 quality rating. -/
def simpleToSM2Quality : SimpleQuality → ℕ
  | .again => 1
  | .hard => 3
  | .good => 4
  | .easy => 5

/-- Runtime semantics of the `simpleToSM2Quality` switch statement when the
TypeScript type system is bypassed and a free-form string reaches it: the
switch has no default case, so a value outside the four labels falls through
and the function returns `undefined`, modelled as `none`. No error is raised
anywhere in the function body. -/
def simpleToSM2QualityRuntime (s : String) : Option ℕ :=
  if s = "again" then some 1
  else if s = "hard" then some 3
  else if s = "good" then some 4
  else if s = "easy" then some 5
  else none

/-- `calculateNewEaseFactor`: `EF + (0.1 - (5 - q) * (0.08 + (5 - q) * 0.02))`
clamped below by `MIN_EASE_FACTOR` via `Math.max`. -/
def calculateNewEaseFactor (currentEF : ℚ) (quality : ℕ) : ℚ :=
  let newEF := currentEF +
    (1 / 10 - (5 - (quality : ℚ)) * (8 / 100 + (5 - (quality : ℚ)) * (2 / 100)))
  max MIN_EASE_FACTOR newEF

/-- `calculateNextInterval`: the SM-2 interval scheduler. -/
def calculateNextInterval (currentInterval : ℤ) (repetitions : ℕ)
    (easeFactor : ℚ) (quality : ℕ) : ℤ :=
  if quality < 3 then 1
  else if repetitions = 0 then 1
  else if repetitions = 1 then 6
  else round ((currentInterval : ℚ) * easeFactor)

/-- Milliseconds per day, the granularity used by the `Date` model. -/
def msPerDay : ℤ := 86400000

/-- Day index of a timestamp (the effect of reading a `Date` truncated by
`setHours(0,0,0,0)` and counting days). -/
def dayOf (t : ℤ) : ℤ := t.fdiv msPerDay

/-- Timestamp of the last millisecond of the day containing `t` (the effect
of `setHours(23,59,59,999)`). -/
def endOfDay (t : ℤ) : ℤ := msPerDay * dayOf t + (msPerDay - 1)

/-- `calculateNextReviewDate`: adds `intervalDays` days to `now` and
normalizes to start of day. -/
def calculateNextReviewDate (now : ℤ) (intervalDays : ℤ) : ℤ :=
  msPerDay * (dayOf now + intervalDays)

/-- The `Pick<VocabularyReview, easeFactor | interval | repetitions>`
argument of `calculateNextReview`. -/
structure SM2Input where
  easeFactor : ℚ
  interval : ℤ
  repetitions : ℕ
deriving Repr

/-- The result record of `calculateNextReview`. -/
structure SM2Result where
  easeFactor : ℚ
  interval : ℤ
  repetitions : ℕ
  nextReviewDate : ℤ
  isMastered : Bool
deriving Repr

/-- `calculateNextReview`: one SM-2 update step. The failure branch sets the
interval to 1 directly (redundantly with the same check inside
`calculateNextInterval`), the success branch increments repetitions and calls
the scheduler with the pre-update repetitions count; the ease factor is
recomputed in both branches. -/
def calculateNextReview (currentReview : SM2Input) (quality : ℕ) (now : ℤ) :
    SM2Result :=
  let newRepetitions : ℕ :=
    if quality < 3 then 0 else currentReview.repetitions + 1
  let newEaseFactor : ℚ := calculateNewEaseFactor currentReview.easeFactor quality
  let newInterval : ℤ :=
    if quality < 3 then 1
    else calculateNextInterval currentReview.interval currentReview.repetitions
      newEaseFactor quality
  { easeFactor := newEaseFactor
    interval := newInterval
    repetitions := newRepetitions
    nextReviewDate := calculateNextReviewDate now newInterval
    isMastered := decide (MASTERY_INTERVAL_THRESHOLD ≤ newInterval) }

/-- `getIntervalDescription`: human-readable description of a day count. -/
def getIntervalDescription (intervalDays : ℤ) : String :=
  if intervalDays = 0 then "New"
  else if intervalDays = 1 then "1 day"
  else if intervalDays < 7 then toString intervalDays ++ " days"
  else if intervalDays < 30 then
    let weeks := round ((intervalDays : ℚ) / 7)
    if weeks = 1 then "1 week" else toString weeks ++ " weeks"
  else if intervalDays < 365 then
    let months := round ((intervalDays : ℚ) / 30)
    if months = 1 then "1 month" else toString months ++ " months"
  else
    let years := round ((intervalDays : ℚ) / 365)
    if years = 1 then "1 year" else toString years ++ " years"

/-- Follows the spec's words for the IntervalPreviewer description mapping:
`0` maps to `"New"`; `1` to `"1 day"`; below 7 to `"N days"`; below 30 to
rounded weeks with singular/plural; below 365 to rounded months with
singular/plural; otherwise rounded years with singular/plural. -/
def specIntervalDescription (intervalDays : ℤ) : String :=
  if intervalDays = 0 then "New"
  else if intervalDays = 1 then "1 day"
  else if intervalDays < 7 then toString intervalDays ++ " days"
  else if intervalDays < 30 then
    let weeks := round ((intervalDays : ℚ) / 7)
    if weeks = 1 then "1 week" else toString weeks ++ " weeks"
  else if intervalDays < 365 then
    let months := round ((intervalDays : ℚ) / 30)
    if months = 1 then "1 month" else toString months ++ " months"
  else
    let years := round ((intervalDays : ℚ) / 365)
    if years = 1 then "1 year" else toString years ++ " years"

/-- The grade list iterated by `previewIntervals`. -/
def qualitiesList : List SimpleQuality :=
  [.again, .hard, .good, .easy]

/-- `previewIntervals`: for each of the four grades, runs `calculateNextReview`
on the (unchanged) input snapshot and keeps only the description of the
resulting interval. -/
def previewIntervals (currentReview : SM2Input) (now : ℤ) :
    List (SimpleQuality × String) :=
  qualitiesList.map fun simple =>
    (simple,
      getIntervalDescription
        (calculateNextReview currentReview (simpleToSM2Quality simple) now).interval)

/-- The scheduling-relevant fields of a `VocabularyReview` record, with dates
as millisecond timestamps. -/
structure VocabularyReview where
  userId : String
  term : String
  easeFactor : ℚ
  interval : ℤ
  repetitions : ℕ
  nextReviewDate : ℤ
  lastReviewDate : Option ℤ
  isSuspended : Bool
  isMastered : Bool
  createdAt : ℤ
deriving Repr

/-- `isNewCard`: repetitions is 0 and `lastReviewDate` is absent (a present
`Date` object is always truthy in JavaScript). -/
def isNewCard (review : VocabularyReview) : Bool :=
  review.repetitions == 0 && review.lastReviewDate.isNone

/-- The comparator of `sortByReviewPriority` expressed as a Boolean
less-or-equal: `reviewPriorityLE a b` is true exactly when the JavaScript
comparator returns a value `≤ 0` on `(a, b)`. New cards compare after all
other cards; otherwise day-truncated `nextReviewDate` decides, with the ease
factor difference as tie-breaker. -/
def reviewPriorityLE (a b : VocabularyReview) : Bool :=
  let aIsNew := isNewCard a
  let bIsNew := isNewCard b
  if aIsNew && !bIsNew then false
  else if !aIsNew && bIsNew then true
  else if dayOf a.nextReviewDate ≠ dayOf b.nextReviewDate then
    decide (dayOf a.nextReviewDate < dayOf b.nextReviewDate)
  else decide (a.easeFactor ≤ b.easeFactor)

/-- `sortByReviewPriority`: a copy of the input sorted by the priority
comparator. -/
def sortByReviewPriority (reviews : List VocabularyReview) :
    List VocabularyReview :=
  reviews.mergeSort reviewPriorityLE

/-- The optional-limit step of the queries: `if (limit) query.limit(limit)`.
The limit is applied only when the JavaScript truthiness test passes, so an
absent limit or a limit of `0` (falsy) leaves the list whole. -/
def applyLimit {α : Type} (lim : Option ℕ) (l : List α) : List α :=
  match lim with
  | some n => if n = 0 then l else l.take n
  | none => l

/-- `fetchDueReviews`: rows of the user that are not suspended, have
`nextReviewDate` at or before the end of today and `repetitions > 0`,
ordered ascending by `nextReviewDate`, then limited. -/
def fetchDueReviews (rows : List VocabularyReview) (uid : String) (now : ℤ)
    (lim : Option ℕ) : List VocabularyReview :=
  let endOfToday := endOfDay now
  let filtered := rows.filter fun r =>
    r.userId == uid && r.isSuspended == false &&
      decide (r.nextReviewDate ≤ endOfToday) && decide (0 < r.repetitions)
  let ordered := filtered.mergeSort fun a b =>
    decide (a.nextReviewDate ≤ b.nextReviewDate)
  applyLimit lim ordered

/-- `fetchNewWordsForReview`: rows of the user that are not suspended and have
`repetitions = 0`, ordered ascending by `createdAt`, then limited. -/
def fetchNewWordsForReview (rows : List VocabularyReview) (uid : String)
    (lim : Option ℕ) : List VocabularyReview :=
  let filtered := rows.filter fun r =>
    r.userId == uid && r.isSuspended == false && r.repetitions == 0
  let ordered := filtered.mergeSort fun a b => decide (a.createdAt ≤ b.createdAt)
  applyLimit lim ordered

/-- The pairwise ordering property claimed for `sortByReviewPriority`: a
not-new record never follows a new one, and among not-new records the
day-truncated due dates are ascending with the ease factor as tie-breaker. -/
def priorityOrdered (a b : VocabularyReview) : Prop :=
  (isNewCard a = true → isNewCard b = true) ∧
  (isNewCard a = false → isNewCard b = false →
    dayOf a.nextReviewDate ≤ dayOf b.nextReviewDate ∧
      (dayOf a.nextReviewDate = dayOf b.nextReviewDate →
        a.easeFactor ≤ b.easeFactor))

/-- Claim C1: for every record and every quality reachable from the four
grades, `calculateNextReview` recomputes the ease factor with
`calculateNewEaseFactor` in both branches, resets repetitions to 0 and the
interval to 1 on failure (quality below 3), and on success increments
repetitions while choosing the interval from the pre-update repetitions
count: 1 when it was 0, 6 when it was 1, and `round(interval * newEase)`
otherwise. -/
theorem calculateNextReview_spec (inp : SM2Input) (g : SimpleQuality) (now : ℤ) :
    (calculateNextReview inp (simpleToSM2Quality g) now).easeFactor
        = calculateNewEaseFactor inp.easeFactor (simpleToSM2Quality g) ∧
    (calculateNextReview inp (simpleToSM2Quality g) now).repetitions
        = (if simpleToSM2Quality g < 3 then 0 else inp.repetitions + 1) ∧
    (calculateNextReview inp (simpleToSM2Quality g) now).interval
        = (if simpleToSM2Quality g < 3 then 1
           else if inp.repetitions = 0 then 1
           else if inp.repetitions = 1 then 6
           else round ((inp.interval : ℚ) *
             calculateNewEaseFactor inp.easeFactor (simpleToSM2Quality g))) := by
  refine ⟨rfl, rfl, ?_⟩
  cases g <;>
    simp [calculateNextReview, calculateNextInterval, simpleToSM2Quality]

/-- Claim C2: for every starting ease factor and every quality reachable from
the four grades, the new ease factor is exactly the SM-2 formula value clamped
below at `MIN_EASE_FACTOR = 1.3`, hence always at least 1.3; and
`calculateNextReview` applies this ease update in the failure branch just as
in the success branch. -/
theorem calculateNewEaseFactor_spec (ef : ℚ) (g : SimpleQuality) :
    calculateNewEaseFactor ef (simpleToSM2Quality g)
        = max MIN_EASE_FACTOR
            (ef + (1 / 10 - (5 - (simpleToSM2Quality g : ℚ)) *
              (8 / 100 + (5 - (simpleToSM2Quality g : ℚ)) * (2 / 100)))) ∧
    (13 / 10 : ℚ) ≤ calculateNewEaseFactor ef (simpleToSM2Quality g) ∧
    (∀ inp : SM2Input, ∀ now : ℤ,
      (calculateNextReview inp (simpleToSM2Quality g) now).easeFactor
        = calculateNewEaseFactor inp.easeFactor (simpleToSM2Quality g)) := by
  refine ⟨rfl, ?_, fun inp now => rfl⟩
  exact le_max_left _ _

/-- Claim C3: for every record and every quality reachable from the four
grades, the `isMastered` flag returned by `calculateNextReview` is true
exactly when the newly computed interval reaches the mastery threshold, which
is 21 days. -/
theorem isMastered_spec (inp : SM2Input) (g : SimpleQuality) (now : ℤ) :
    MASTERY_INTERVAL_THRESHOLD = 21 ∧
    ((calculateNextReview inp (simpleToSM2Quality g) now).isMastered = true ↔
      21 ≤ (calculateNextReview inp (simpleToSM2Quality g) now).interval) := by
  refine ⟨rfl, ?_⟩
  simp [calculateNextReview, MASTERY_INTERVAL_THRESHOLD]

/-- Claim C7: the quality mapper is total on the four grades with
`again ↦ 1`, `hard ↦ 3`, `good ↦ 4`, `easy ↦ 5`, and its range is exactly
the set of qualities 1, 3, 4 and 5, so 0 and 2 are never produced. -/
theorem simpleToSM2Quality_spec :
    simpleToSM2Quality .again = 1 ∧ simpleToSM2Quality .hard = 3 ∧
    simpleToSM2Quality .good = 4 ∧ simpleToSM2Quality .easy = 5 ∧
    (∀ q : ℕ, (∃ g, simpleToSM2Quality g = q) ↔
      (q = 1 ∨ q = 3 ∨ q = 4 ∨ q = 5)) := by
  refine ⟨rfl, rfl, rfl, rfl, fun q => ?_⟩
  constructor
  · rintro ⟨g, rfl⟩
    cases g <;> simp [simpleToSM2Quality]
  · rintro (rfl | rfl | rfl | rfl)
    · exact ⟨.again, rfl⟩
    · exact ⟨.hard, rfl⟩
    · exact ⟨.good, rfl⟩
    · exact ⟨.easy, rfl⟩

/-- Claim C8 counterexample: the concrete out-of-set value `"unknown"` reaches
the runtime mapper and the result is `undefined` (`none`), not a signaled
`InvalidQuality` error — the switch statement has no default case and no
`throw` anywhere, so the claim fails at this input. -/
theorem simpleToSM2QualityRuntime_counterexample :
    "unknown" ≠ "again" ∧ "unknown" ≠ "hard" ∧ "unknown" ≠ "good" ∧
    "unknown" ≠ "easy" ∧ simpleToSM2QualityRuntime "unknown" = none := by
  refine ⟨?_, ?_, ?_, ?_, rfl⟩ <;> decide

/-- Claim C8 amended: if a grade value outside the enumerated set reaches the
runtime mapper, the mapper falls through the switch and returns `undefined`
(modelled `none`); no `InvalidQuality` error is signaled. -/
theorem simpleToSM2QualityRuntime_fallthrough (s : String)
    (h1 : s ≠ "again") (h2 : s ≠ "hard") (h3 : s ≠ "good") (h4 : s ≠ "easy") :
    simpleToSM2QualityRuntime s = none := by
  simp [simpleToSM2QualityRuntime, h1, h2, h3, h4]

/-- Witness for the amended claim C8 at the concrete input `"foo"`. -/
theorem simpleToSM2QualityRuntime_fallthrough_witness :
    "foo" ≠ "again" ∧ "foo" ≠ "hard" ∧ "foo" ≠ "good" ∧ "foo" ≠ "easy" ∧
    simpleToSM2QualityRuntime "foo" = none :=
  ⟨by decide, by decide, by decide, by decide,
    simpleToSM2QualityRuntime_fallthrough "foo" (by decide) (by decide)
      (by decide) (by decide)⟩

/-- Claim C5: `previewIntervals` returns exactly 4 entries, one per grade in
order again, hard, good, easy; each entry carries the description of the
interval that `calculateNextReview` would produce for that grade; and the
description mapping agrees with the spec's mapping (`specIntervalDescription`)
on every day count. The input snapshot is never mutated: `previewIntervals`
is a pure function of it. -/
theorem previewIntervals_spec (cur : SM2Input) (now : ℤ) :
    (previewIntervals cur now).map Prod.fst
        = [SimpleQuality.again, .hard, .good, .easy] ∧
    (previewIntervals cur now).length = 4 ∧
    (∀ g : SimpleQuality,
      (g, getIntervalDescription
          ((calculateNextReview cur (simpleToSM2Quality g) now).interval))
        ∈ previewIntervals cur now) ∧
    (∀ n : ℤ, getIntervalDescription n = specIntervalDescription n) := by
  refine ⟨rfl, rfl, fun g => ?_, fun n => rfl⟩
  cases g <;> simp [previewIntervals, qualitiesList]

theorem one_le_calculateNewEaseFactor (ef : ℚ) (q : ℕ) :
    (1 : ℚ) ≤ calculateNewEaseFactor ef q := by
  unfold calculateNewEaseFactor
  have h : (1 : ℚ) ≤ MIN_EASE_FACTOR := by norm_num [MIN_EASE_FACTOR]
  exact le_trans h (le_max_left _ _)

theorem le_round_of_le (n : ℤ) (x : ℚ) (h : (n : ℚ) ≤ x) : n ≤ round x := by
  rw [round_eq]
  refine Int.le_floor.mpr ?_
  linarith

/-- Claim C9: for a record with at least two prior repetitions, a prior
interval of at least one day and any ease factor, every successful quality
reachable from the grades yields an interval at least as long as the prior
one: the scheduler takes `round(interval * newEase)` and the new ease factor
is clamped to at least 1.3. -/
theorem interval_non_decreasing (ef : ℚ) (iv : ℤ) (reps : ℕ)
    (g : SimpleQuality) (now : ℤ) (hreps : 2 ≤ reps) (hiv : 1 ≤ iv)
    (hq : 3 ≤ simpleToSM2Quality g) :
    iv ≤ (calculateNextReview ⟨ef, iv, reps⟩ (simpleToSM2Quality g) now).interval := by
  have hq3 : ¬ simpleToSM2Quality g < 3 := not_lt.mpr hq
  have h0 : ¬ reps = 0 := by omega
  have h1 : ¬ reps = 1 := by omega
  simp only [calculateNextReview, calculateNextInterval, hq3, h0, h1, if_false]
  refine le_round_of_le iv _ ?_
  have hEF : (1 : ℚ) ≤ calculateNewEaseFactor ef (simpleToSM2Quality g) :=
    one_le_calculateNewEaseFactor ef _
  have hiv' : (0 : ℚ) ≤ (iv : ℚ) := by exact_mod_cast le_trans (by norm_num) hiv
  exact le_mul_of_one_le_right hiv' hEF

/-- Witness for claim C9 at ease 2.5, interval 6, repetitions 2, grade good. -/
theorem interval_non_decreasing_witness :
    2 ≤ 2 ∧ (1 : ℤ) ≤ 6 ∧ 3 ≤ simpleToSM2Quality SimpleQuality.good ∧
    (6 : ℤ) ≤ (calculateNextReview ⟨DEFAULT_EASE_FACTOR, 6, 2⟩
      (simpleToSM2Quality SimpleQuality.good) 0).interval :=
  ⟨by decide, by decide, by decide,
    interval_non_decreasing DEFAULT_EASE_FACTOR 6 2 SimpleQuality.good 0
      (by decide) (by decide) (by decide)⟩

theorem interval_ge_one_aux (ef : ℚ) (iv : ℤ) (reps : ℕ) (q : ℕ) (now : ℤ)
    (h : 1 ≤ iv ∨ reps ≤ 1) :
    1 ≤ (calculateNextReview ⟨ef, iv, reps⟩ q now).interval := by
  by_cases hq : q < 3
  · simp [calculateNextReview, hq]
  · simp only [calculateNextReview, calculateNextInterval, hq, if_false]
    by_cases h0 : reps = 0
    · simp [h0]
    · by_cases h1 : reps = 1
      · simp [h0, h1]
      · simp only [h0, h1, if_false]
        have hiv : 1 ≤ iv := by
          rcases h with hl | hr
          · exact hl
          · omega
        refine le_round_of_le 1 _ ?_
        have hiv' : (1 : ℚ) ≤ (iv : ℚ) := by exact_mod_cast hiv
        have hEF : (1 : ℚ) ≤ calculateNewEaseFactor ef q :=
          one_le_calculateNewEaseFactor ef q
        calc (1 : ℚ) ≤ (iv : ℚ) := hiv'
          _ ≤ (iv : ℚ) * calculateNewEaseFactor ef q :=
              le_mul_of_one_le_right (by linarith) hEF

theorem append_ne_new (s suf : String) (hsuf : 4 ≤ suf.length) :
    s ++ suf ≠ "New" := by
  intro heq
  have hlen := congrArg String.length heq
  rw [String.length_append] at hlen
  have h3 : ("New" : String).length = 3 := rfl
  omega

theorem getIntervalDescription_ne_new (n : ℤ) (hn : 1 ≤ n) :
    getIntervalDescription n ≠ "New" := by
  have h0 : ¬ n = 0 := by omega
  simp only [getIntervalDescription, h0, if_false]
  split_ifs
  · decide
  · exact append_ne_new _ " days" (by decide)
  · decide
  · exact append_ne_new _ " weeks" (by decide)
  · decide
  · exact append_ne_new _ " months" (by decide)
  · decide
  · exact append_ne_new _ " years" (by decide)

/-- Claim C10: whenever the prior interval is at least 1 or the prior
repetitions count is at most 1, every quality reachable from the four grades
produces an interval of at least one day, the scheduled next review day is at
least the calendar day after the review, and no entry of `previewIntervals`
carries the "New" description reserved for interval 0. -/
theorem interval_at_least_one (ef : ℚ) (iv : ℤ) (reps : ℕ) (g : SimpleQuality)
    (now : ℤ) (h : 1 ≤ iv ∨ reps ≤ 1) :
    1 ≤ (calculateNextReview ⟨ef, iv, reps⟩ (simpleToSM2Quality g) now).interval ∧
    dayOf now + 1 ≤
      dayOf (calculateNextReview ⟨ef, iv, reps⟩ (simpleToSM2Quality g) now).nextReviewDate ∧
    ∀ p ∈ previewIntervals ⟨ef, iv, reps⟩ now, p.2 ≠ "New" := by
  refine ⟨interval_ge_one_aux ef iv reps _ now h, ?_, ?_⟩
  · have h1 : 1 ≤ (calculateNextReview ⟨ef, iv, reps⟩ (simpleToSM2Quality g) now).interval :=
      interval_ge_one_aux ef iv reps _ now h
    have hrfl : (calculateNextReview ⟨ef, iv, reps⟩ (simpleToSM2Quality g) now).nextReviewDate
        = calculateNextReviewDate now
            ((calculateNextReview ⟨ef, iv, reps⟩ (simpleToSM2Quality g) now).interval) := rfl
    rw [hrfl]
    unfold calculateNextReviewDate
    have hday : dayOf (msPerDay * (dayOf now +
        (calculateNextReview ⟨ef, iv, reps⟩ (simpleToSM2Quality g) now).interval))
        = dayOf now +
          (calculateNextReview ⟨ef, iv, reps⟩ (simpleToSM2Quality g) now).interval := by
      unfold dayOf
      exact Int.mul_fdiv_cancel_left _ (by norm_num [msPerDay])
    rw [hday]
    omega
  · intro p hp
    obtain ⟨g2, hg2, rfl⟩ := List.mem_map.mp hp
    exact getIntervalDescription_ne_new _ (interval_ge_one_aux ef iv reps _ now h)

/-- Witness for claim C10 at a freshly created record (interval 0,
repetitions 0) and grade good. -/
theorem interval_at_least_one_witness :
    ((1 : ℤ) ≤ 0 ∨ (0 : ℕ) ≤ 1) ∧
    (1 ≤ (calculateNextReview ⟨DEFAULT_EASE_FACTOR, 0, 0⟩
        (simpleToSM2Quality SimpleQuality.good) 0).interval ∧
      dayOf 0 + 1 ≤ dayOf (calculateNextReview ⟨DEFAULT_EASE_FACTOR, 0, 0⟩
        (simpleToSM2Quality SimpleQuality.good) 0).nextReviewDate ∧
      ∀ p ∈ previewIntervals ⟨DEFAULT_EASE_FACTOR, 0, 0⟩ 0, p.2 ≠ "New") :=
  ⟨Or.inr (by decide),
    interval_at_least_one DEFAULT_EASE_FACTOR 0 0 SimpleQuality.good 0
      (Or.inr (by decide))⟩

theorem reviewPriorityLE_iff (a b : VocabularyReview) :
    reviewPriorityLE a b = true ↔
      (isNewCard a = false ∧ isNewCard b = true) ∨
      (isNewCard a = isNewCard b ∧
        (dayOf a.nextReviewDate < dayOf b.nextReviewDate ∨
          (dayOf a.nextReviewDate = dayOf b.nextReviewDate ∧
            a.easeFactor ≤ b.easeFactor))) := by
  unfold reviewPriorityLE
  cases ha : isNewCard a <;> cases hb : isNewCard b <;>
    by_cases hd : dayOf a.nextReviewDate = dayOf b.nextReviewDate <;>
      simp [ha, hb, hd]

theorem reviewPriorityLE_trans (a b c : VocabularyReview)
    (hab : reviewPriorityLE a b = true) (hbc : reviewPriorityLE b c = true) :
    reviewPriorityLE a c = true := by
  rw [reviewPriorityLE_iff] at hab hbc ⊢
  rcases hab with ⟨ha, hb⟩ | ⟨hab, lab⟩
  · rcases hbc with ⟨hb2, hc⟩ | ⟨hbc, lbc⟩
    · rw [hb] at hb2
      exact absurd hb2 (by simp)
    · exact Or.inl ⟨ha, hbc ▸ hb⟩
  · rcases hbc with ⟨hb2, hc⟩ | ⟨hbc, lbc⟩
    · exact Or.inl ⟨hab ▸ hb2, hc⟩
    · refine Or.inr ⟨hab.trans hbc, ?_⟩
      rcases lab with h1 | ⟨h1, e1⟩ <;> rcases lbc with h2 | ⟨h2, e2⟩
      · exact Or.inl (h1.trans h2)
      · exact Or.inl (h2 ▸ h1)
      · exact Or.inl (h1 ▸ h2)
      · exact Or.inr ⟨h1.trans h2, e1.trans e2⟩

theorem reviewPriorityLE_total (a b : VocabularyReview) :
    (reviewPriorityLE a b || reviewPriorityLE b a) = true := by
  rw [Bool.or_eq_true, reviewPriorityLE_iff, reviewPriorityLE_iff]
  cases ha : isNewCard a <;> cases hb : isNewCard b
  · rcases lt_trichotomy (dayOf a.nextReviewDate) (dayOf b.nextReviewDate) with h | h | h
    · exact Or.inl (Or.inr ⟨rfl, Or.inl h⟩)
    · rcases le_total a.easeFactor b.easeFactor with he | he
      · exact Or.inl (Or.inr ⟨rfl, Or.inr ⟨h, he⟩⟩)
      · exact Or.inr (Or.inr ⟨rfl, Or.inr ⟨h.symm, he⟩⟩)
    · exact Or.inr (Or.inr ⟨rfl, Or.inl h⟩)
  · exact Or.inl (Or.inl ⟨rfl, rfl⟩)
  · exact Or.inr (Or.inl ⟨rfl, rfl⟩)
  · rcases lt_trichotomy (dayOf a.nextReviewDate) (dayOf b.nextReviewDate) with h | h | h
    · exact Or.inl (Or.inr ⟨rfl, Or.inl h⟩)
    · rcases le_total a.easeFactor b.easeFactor with he | he
      · exact Or.inl (Or.inr ⟨rfl, Or.inr ⟨h, he⟩⟩)
      · exact Or.inr (Or.inr ⟨rfl, Or.inr ⟨h.symm, he⟩⟩)
    · exact Or.inr (Or.inr ⟨rfl, Or.inl h⟩)

theorem priorityOrdered_of_le (a b : VocabularyReview)
    (h : reviewPriorityLE a b = true) : priorityOrdered a b := by
  rw [reviewPriorityLE_iff] at h
  unfold priorityOrdered
  rcases h with ⟨ha, hb⟩ | ⟨hab, hlex⟩
  · refine ⟨fun _ => hb, fun _ h3 => absurd hb (by simp [h3])⟩
  · refine ⟨fun h2 => hab ▸ h2, fun _ _ => ?_⟩
    rcases hlex with hlt | ⟨heq, hle⟩
    · exact ⟨le_of_lt hlt, fun hEq => absurd hEq (ne_of_lt hlt)⟩
    · exact ⟨le_of_eq heq, fun _ => hle⟩

/-- Claim C4: `sortByReviewPriority` returns a permutation of its input in
which every not-new record precedes every new record regardless of dates,
not-new records appear in ascending order of day-truncated `nextReviewDate`,
and records sharing a day-truncated `nextReviewDate` appear in ascending
order of ease factor. -/
theorem sortByReviewPriority_spec (l : List VocabularyReview) :
    (sortByReviewPriority l).Perm l ∧
    (sortByReviewPriority l).Pairwise priorityOrdered := by
  constructor
  · exact List.mergeSort_perm l reviewPriorityLE
  · have hs := @List.sorted_mergeSort VocabularyReview reviewPriorityLE
      reviewPriorityLE_trans reviewPriorityLE_total l
    exact hs.imp fun h => priorityOrdered_of_le _ _ h

theorem applyLimit_subset {α : Type} (lim : Option ℕ) (l : List α) (a : α)
    (h : a ∈ applyLimit lim l) : a ∈ l := by
  cases lim with
  | none => exact h
  | some n =>
    by_cases h0 : n = 0
    · simpa [applyLimit, h0] using h
    · simp only [applyLimit, h0, if_false] at h
      exact List.take_subset n l h

theorem applyLimit_pairwise {α : Type} {R : α → α → Prop} (lim : Option ℕ)
    (l : List α) (h : l.Pairwise R) : (applyLimit lim l).Pairwise R := by
  cases lim with
  | none => exact h
  | some n =>
    by_cases h0 : n = 0
    · simpa [applyLimit, h0] using h
    · simp only [applyLimit, h0, if_false]
      exact h.take

/-- Claim C6: every record returned by the due-pool query is not suspended,
has strictly positive repetitions and a `nextReviewDate` no later than the
end of today, and the returned list is ascending by `nextReviewDate`; a
record with zero repetitions is never returned by the due-pool query, and
every record returned by the separate new-pool query has zero repetitions. -/
theorem fetchDueReviews_spec (rows : List VocabularyReview) (uid : String)
    (now : ℤ) (lim : Option ℕ) :
    (∀ r ∈ fetchDueReviews rows uid now lim,
      r.isSuspended = false ∧ 0 < r.repetitions ∧
        r.nextReviewDate ≤ endOfDay now) ∧
    (fetchDueReviews rows uid now lim).Pairwise
      (fun a b => a.nextReviewDate ≤ b.nextReviewDate) ∧
    (∀ r, r.repetitions = 0 → r ∉ fetchDueReviews rows uid now lim) ∧
    (∀ r ∈ fetchNewWordsForReview rows uid lim, r.repetitions = 0) := by
  have hmem : ∀ r ∈ fetchDueReviews rows uid now lim,
      r.isSuspended = false ∧ 0 < r.repetitions ∧
        r.nextReviewDate ≤ endOfDay now := by
    intro r hr
    have hr2 := applyLimit_subset _ _ _ hr
    have hr3 := (List.mergeSort_perm _ _).mem_iff.mp hr2
    have hp := List.of_mem_filter hr3
    simp only [Bool.and_eq_true, beq_iff_eq, decide_eq_true_eq] at hp
    exact ⟨hp.1.1.2, hp.2, hp.1.2⟩
  refine ⟨hmem, ?_, ?_, ?_⟩
  · refine applyLimit_pairwise _ _ ?_
    have hs := @List.sorted_mergeSort VocabularyReview
      (fun a b => decide (a.nextReviewDate ≤ b.nextReviewDate))
      (by intro a b c h1 h2
          simp only [decide_eq_true_eq] at h1 h2 ⊢
          exact le_trans h1 h2)
      (by intro a b
          simp only [Bool.or_eq_true, decide_eq_true_eq]
          exact Int.le_total _ _)
      (rows.filter fun r =>
        r.userId == uid && r.isSuspended == false &&
          decide (r.nextReviewDate ≤ endOfDay now) && decide (0 < r.repetitions))
    exact hs.imp fun h => of_decide_eq_true h
  · intro r hrep hr
    have := (hmem r hr).2.1
    omega
  · intro r hr
    have hr2 := applyLimit_subset _ _ _ hr
    have hr3 := (List.mergeSort_perm _ _).mem_iff.mp hr2
    have hp := List.of_mem_filter hr3
    simp only [Bool.and_eq_true, beq_iff_eq] at hp
    exact hp.2
